import Mathlib

/-!
Verification development for the Factorio seed image analyser.

The Python sources are shallowly embedded: 2-D numpy arrays become
`List (List Nat)` (masks hold 0/1 pixel values), contours become
`List (Int × Int)`, Python `//` on integers becomes `Int.fdiv`,
Python slice semantics (negative indices, clamping) are modelled by
`pyIdx`/`pySliceList`, and numpy reductions over empty arrays, which
raise `ValueError`, are modelled with `Option`/sum types whose `none` /
`raised` constructor stands for the raised exception.
-/

/-- Pixel value lookup `arr[i][j]`, 0 outside (used only where the source
guarantees in-range access or where a border mode defines the value). -/
def readPx (arr : List (List Nat)) (i j : Nat) : Nat :=
  (arr.getD i []).getD j 0

/-- `np.sum` of a 2-D array. -/
def sum2d (arr : List (List Nat)) : Nat :=
  (arr.map List.sum).sum

/-- `np.amax` of a 2-D array: `none` models the `ValueError` numpy raises
on an empty array. -/
def amax2d (arr : List (List Nat)) : Option Nat :=
  arr.flatten.max?

/-- Normalise a Python slice endpoint for a sequence of length `n`:
negative indices count from the end, out-of-range values clamp. -/
def pyIdx (n : Nat) (i : Int) : Nat :=
  if i < 0 then ((n : Int) + i).toNat else min i.toNat n

/-- Python slice `l[a:b]` with full negative-index semantics. -/
def pySliceList {α : Type} (l : List α) (a b : Int) : List α :=
  (l.take (pyIdx l.length b)).drop (pyIdx l.length a)

/-- NumPy 2-D slice `arr[r0:r1, c0:c1]`. -/
def pySlice2d (arr : List (List Nat)) (r0 r1 c0 c1 : Int) : List (List Nat) :=
  (pySliceList arr r0 r1).map (fun row => pySliceList row c0 c1)

/-- An ore patch as the analysis code sees it: the binary mask
(`resource_array`) and the cached boundary contour (`_contour`, a list of
`(x, y)` pixel points as produced by `cv2.findContours`). -/
structure OrePatch where
  resource_array : List (List Nat)
  contour : List (Int × Int)
deriving DecidableEq

/-- `OrePatch.size`: `np.sum(self.resource_array)`. -/
def OrePatch.size (p : OrePatch) : Nat :=
  sum2d p.resource_array

/-- NumPy 2-D `.transpose()` of a rectangular array (entry `(i, j)` of the
result is entry `(j, i)` of the argument). -/
def npTranspose (m : List (List Int)) : List (List Int) :=
  match m with
  | [] => []
  | r :: _ => (List.range r.length).map (fun j => m.map (fun row => row.getD j 0))

/-- The elementwise update `d[d > 0] -= 1` applied to one entry of the
absolute-delta matrices in `_calculate_min_distance_between_contours`. -/
def decPos (d : Nat) : Nat :=
  if 0 < d then d - 1 else d

/-- `MapAnalyser._calculate_min_distance_between_contours`, up to the final
`math.sqrt`: the minimum of the squared-distance matrix built by the
vectorized pipeline (replicate the x/y rows, transpose one copy, subtract,
take absolute values, decrement the positive deltas, square, add,
`np.min`).  `none` models the `ValueError` raised by `np.min` of an empty
matrix; the source returns `math.sqrt` of the value in `some`. -/
def calculate_min_distance_between_contours_sq
    (contour other_contour : List (Int × Int)) : Option Nat :=
  let contour_x := contour.map Prod.fst
  let other_contour_x := other_contour.map Prod.fst
  let contour_y := contour.map Prod.snd
  let other_contour_y := other_contour.map Prod.snd
  let contour_x_matrix := npTranspose (List.replicate other_contour_x.length contour_x)
  let other_contour_x_matrix := List.replicate contour_x.length other_contour_x
  let contour_y_matrix := npTranspose (List.replicate other_contour_y.length contour_y)
  let other_contour_y_matrix := List.replicate contour_y.length other_contour_y
  let diff_x_matrix :=
    List.zipWith (List.zipWith (fun c o => (o - c).natAbs)) contour_x_matrix other_contour_x_matrix
  let diff_y_matrix :=
    List.zipWith (List.zipWith (fun c o => (o - c).natAbs)) contour_y_matrix other_contour_y_matrix
  let diff_x_matrix := diff_x_matrix.map (List.map decPos)
  let diff_y_matrix := diff_y_matrix.map (List.map decPos)
  let x_matrix_sq := diff_x_matrix.map (List.map (fun d => d * d))
  let y_matrix_sq := diff_y_matrix.map (List.map (fun d => d * d))
  let distance_matrix_sq := List.zipWith (List.zipWith (· + ·)) x_matrix_sq y_matrix_sq
  distance_matrix_sq.flatten.min?

/-- `MapAnalyser.calculate_min_distance_between_patches`, up to the final
`math.sqrt` (the source returns `math.sqrt` of the value in `some`). -/
def calculate_min_distance_between_patches_sq (p q : OrePatch) : Option Nat :=
  calculate_min_distance_between_contours_sq p.contour q.contour

/-- Reference (spec) squared distance of one point pair:
`max(|dx| - 1, 0)^2 + max(|dy| - 1, 0)^2` (Nat subtraction is truncated,
so `.natAbs - 1` is exactly `max(|d| - 1, 0)`). -/
def refPairDistSq (p q : Int × Int) : Nat :=
  ((p.1 - q.1).natAbs - 1) * ((p.1 - q.1).natAbs - 1) +
    ((p.2 - q.2).natAbs - 1) * ((p.2 - q.2).natAbs - 1)

/-- Reference (spec) all-pairs list of squared distances. -/
def refAllPairs (contour other_contour : List (Int × Int)) : List Nat :=
  (contour.map (fun p => other_contour.map (fun q => refPairDistSq p q))).flatten

/-- Reference (spec) scalar minimum over all pairs. -/
def refMinDistSq (contour other_contour : List (Int × Int)) : Option Nat :=
  (refAllPairs contour other_contour).min?

/-! ### Claim C1: the vectorized distance pipeline equals the scalar reference -/

theorem map_eq_range_map {α β : Type} (l : List α) (f : α → β) (d : α) :
    l.map f = (List.range l.length).map (fun j => f (l.getD j d)) := by
  induction l with
  | nil => rfl
  | cons a t ih =>
    simp only [List.map_cons, List.length_cons, List.range_succ_eq_map,
      List.map_map]
    refine congrArg₂ List.cons rfl ?_
    rw [ih]
    rfl

theorem npTranspose_replicate (k : Nat) (hk : k ≠ 0) (v : List Int) :
    npTranspose (List.replicate k v) = v.map (fun a => List.replicate k a) := by
  obtain ⟨k, rfl⟩ := Nat.exists_eq_succ_of_ne_zero hk
  show (List.range v.length).map
      (fun j => (List.replicate (k + 1) v).map (fun row => row.getD j 0)) = _
  simp only [List.map_replicate]
  exact (map_eq_range_map v (fun a => List.replicate (k + 1) a) 0).symm

theorem npTranspose_replicate_nil (k : Nat) :
    npTranspose (List.replicate k ([] : List Int)) = [] := by
  cases k with
  | zero => rfl
  | succ k => rfl

theorem zipWith_map_same {α β γ δ : Type} (f : β → γ → δ) (g : α → β) (h : α → γ)
    (l : List α) :
    List.zipWith f (l.map g) (l.map h) = l.map (fun x => f (g x) (h x)) := by
  induction l with
  | nil => rfl
  | cons a t ih => simp [ih]

theorem replicate_length_eq_map {α β : Type} (l : List α) (x : β) :
    List.replicate l.length x = l.map (fun _ => x) := by
  induction l with
  | nil => rfl
  | cons a t ih =>
    rw [List.length_cons, List.replicate_succ, ih]
    rfl

theorem decPos_eq_sub_one (d : Nat) : decPos d = d - 1 := by
  unfold decPos
  split <;> omega

theorem natAbs_sub_swap (a b : Int) : (a - b).natAbs = (b - a).natAbs := by
  rw [← Int.natAbs_neg, neg_sub]

theorem contours_pipeline_eq_ref (A B : List (Int × Int)) (hB : B ≠ []) :
    calculate_min_distance_between_contours_sq A B = refMinDistSq A B := by
  have hBlen : B.length ≠ 0 := fun h => hB (List.length_eq_zero.mp h)
  unfold calculate_min_distance_between_contours_sq refMinDistSq refAllPairs
  refine congrArg (fun (m : List (List Nat)) => m.flatten.min?) ?_
  simp only [List.length_map]
  rw [npTranspose_replicate B.length hBlen (A.map Prod.fst),
    npTranspose_replicate B.length hBlen (A.map Prod.snd)]
  simp only [replicate_length_eq_map, List.map_map, zipWith_map_same]
  refine List.map_congr_left (fun p _ => ?_)
  simp only [Function.comp]
  simp only [zipWith_map_same, List.map_map]
  refine List.map_congr_left (fun q _ => ?_)
  simp only [Function.comp, decPos_eq_sub_one, refPairDistSq]
  rw [natAbs_sub_swap q.1 p.1, natAbs_sub_swap q.2 p.2]

theorem nat_min?_eq_some_zero_of_mem {l : List Nat} (h : 0 ∈ l) :
    l.min? = some 0 := by
  rw [List.min?_eq_some_iff (fun a => le_refl a) (fun a b => min_choice a b)
    (fun a b c => le_min_iff)]
  exact ⟨h, fun b _ => Nat.zero_le b⟩

/-- Claim C1: for non-empty contours, the vectorized matrix implementation of
`calculate_min_distance_between_patches` returns (the square root of) the
minimum over all point pairs of `max(|dx| - 1, 0)^2 + max(|dy| - 1, 0)^2`,
i.e. it agrees with the scalar all-pairs reference definition; consequently
two patches with adjacent (including diagonally adjacent) contour points get
distance 0. -/
theorem c1_min_distance_matrix_eq_reference (p q : OrePatch)
    (hp : p.contour ≠ []) (hq : q.contour ≠ []) :
    calculate_min_distance_between_patches_sq p q = refMinDistSq p.contour q.contour ∧
      (∀ a ∈ p.contour, ∀ b ∈ q.contour,
        (a.1 - b.1).natAbs ≤ 1 → (a.2 - b.2).natAbs ≤ 1 →
        calculate_min_distance_between_patches_sq p q = some 0) := by
  have hmain : calculate_min_distance_between_patches_sq p q
      = refMinDistSq p.contour q.contour :=
    contours_pipeline_eq_ref p.contour q.contour hq
  refine ⟨hmain, fun a ha b hb hx hy => ?_⟩
  rw [hmain]
  have hzero : refPairDistSq a b = 0 := by
    unfold refPairDistSq
    have h1 : (a.1 - b.1).natAbs - 1 = 0 := by omega
    have h2 : (a.2 - b.2).natAbs - 1 = 0 := by omega
    rw [h1, h2]
  have hmem : (0 : Nat) ∈ refAllPairs p.contour q.contour := by
    rw [← hzero]
    unfold refAllPairs
    rw [List.mem_flatten]
    exact ⟨q.contour.map (fun qq => refPairDistSq a qq),
      List.mem_map_of_mem _ ha, List.mem_map_of_mem _ hb⟩
  exact nat_min?_eq_some_zero_of_mem hmem

/-- Witness for C1 at concrete diagonally-adjacent one-point contours. -/
theorem c1_min_distance_matrix_eq_reference_witness :
    calculate_min_distance_between_patches_sq
        ⟨[[1]], [((5 : Int), (6 : Int))]⟩ ⟨[[1]], [((4 : Int), (5 : Int))]⟩
      = refMinDistSq [((5 : Int), (6 : Int))] [((4 : Int), (5 : Int))] ∧
    calculate_min_distance_between_patches_sq
        ⟨[[1]], [((5 : Int), (6 : Int))]⟩ ⟨[[1]], [((4 : Int), (5 : Int))]⟩
      = some 0 := by
  have h := c1_min_distance_matrix_eq_reference
    ⟨[[1]], [((5 : Int), (6 : Int))]⟩ ⟨[[1]], [((4 : Int), (5 : Int))]⟩
    (by decide) (by decide)
  exact ⟨h.1, h.2 (5, 6) (by decide) (4, 5) (by decide) (by decide) (by decide)⟩

/-! ### Claims C2 and C7: region-limited distance and its effect on the
contour cache -/

/-- The two in-place boolean-mask assignments applied to one coordinate in
`calculate_min_distance_between_patches_within_region`:
`v[start > v] = -1` followed by `v[v >= end] = -1`. -/
def markCoord (lo hi v : Int) : Int :=
  let v1 := if lo > v then -1 else v
  if v1 ≥ hi then -1 else v1

/-- The cached contour array after the marking pass.  `patch.contour[:, 0]`
and `patch.contour[:, 1]` are numpy views (despite the source comment
claiming copies), so the `-1` markers are written into the cached
`_contour` itself. -/
def markedContour (c : List (Int × Int)) (sx sy ex ey : Int) : List (Int × Int) :=
  c.map (fun pt => (markCoord sx ex pt.1, markCoord sy ey pt.2))

/-- `patch.contour[condition]` reshaped to points: the rows of the (now
marked) contour whose x and y entries are both non-`-1`
(`np.logical_and(contour_x + 1, contour_y + 1)`). -/
def contourWithinRegion (c : List (Int × Int)) (sx sy ex ey : Int) : List (Int × Int) :=
  (markedContour c sx sy ex ey).filter (fun pt => decide (pt.1 + 1 ≠ 0 ∧ pt.2 + 1 ≠ 0))

/-- Result of `calculate_min_distance_between_patches_within_region`:
`raised` models an escaping exception (numpy `ValueError`), `infinite` the
`float('inf')` sentinel, `distSqrtOf m` the return value `math.sqrt(m)`. -/
inductive DistOutcome where
  | raised : DistOutcome
  | infinite : DistOutcome
  | distSqrtOf : Nat → DistOutcome
deriving DecidableEq

/-- `MapAnalyser.calculate_min_distance_between_patches_within_region`.
The guard `if not (np.amax(...) and np.amax(...))` evaluates the first
`np.amax` (raising on an empty slice), short-circuits to `inf` when it is
0, then evaluates the second likewise; the filtered contours then go
through `_calculate_min_distance_between_contours` (whose `np.min` raises
on an empty matrix — the early return for empty filtered contours is
commented out in the source). -/
def calculate_min_distance_between_patches_within_region
    (p q : OrePatch) (sx sy ex ey : Int) : DistOutcome :=
  match amax2d (pySlice2d p.resource_array sy ey sx ex) with
  | none => .raised
  | some a =>
    if a = 0 then .infinite
    else
      match amax2d (pySlice2d q.resource_array sy ey sx ex) with
      | none => .raised
      | some b =>
        if b = 0 then .infinite
        else
          match calculate_min_distance_between_contours_sq
              (contourWithinRegion p.contour sx sy ex ey)
              (contourWithinRegion q.contour sx sy ex ey) with
          | none => .raised
          | some m => .distSqrtOf m

/-- The pair of cached `_contour` arrays of the two patches after a call to
`calculate_min_distance_between_patches_within_region`: the marking pass
mutates both caches through the column views unless the call returned on
the fast path (or raised) before reaching the marking loop. -/
def contour_caches_after_within_region
    (p q : OrePatch) (sx sy ex ey : Int) : List (Int × Int) × List (Int × Int) :=
  match amax2d (pySlice2d p.resource_array sy ey sx ex) with
  | none => (p.contour, q.contour)
  | some a =>
    if a = 0 then (p.contour, q.contour)
    else
      match amax2d (pySlice2d q.resource_array sy ey sx ex) with
      | none => (p.contour, q.contour)
      | some b =>
        if b = 0 then (p.contour, q.contour)
        else (markedContour p.contour sx sy ex ey, markedContour q.contour sx sy ex ey)

/-- A concrete 3×3 solid patch with its `cv2.findContours`-style boundary
contour (all eight boundary pixels; the centre pixel (1,1) is interior). -/
def solidPatch3 : OrePatch :=
  ⟨[[1, 1, 1], [1, 1, 1], [1, 1, 1]],
    [(0, 0), (1, 0), (2, 0), (2, 1), (2, 2), (1, 2), (0, 2), (0, 1)]⟩

theorem contours_sq_nil_left (B : List (Int × Int)) :
    calculate_min_distance_between_contours_sq [] B = none := by
  simp [calculate_min_distance_between_contours_sq, npTranspose_replicate_nil]

theorem contours_sq_nil_right (A : List (Int × Int)) :
    calculate_min_distance_between_contours_sq A [] = none := by
  simp [calculate_min_distance_between_contours_sq, npTranspose]

/-- Counterexample to claim C2: the region `[1,2) × [1,2)` contains interior
area of `solidPatch3` (the mask slice is `[[1]]`) but none of its contour
points, and the call raises (numpy `ValueError` from the empty matrix)
instead of returning `+infinity`. -/
theorem c2_within_region_counterexample :
    calculate_min_distance_between_patches_within_region solidPatch3 solidPatch3 1 1 2 2
        = DistOutcome.raised ∧
      calculate_min_distance_between_patches_within_region solidPatch3 solidPatch3 1 1 2 2
        ≠ DistOutcome.infinite ∧
      amax2d (pySlice2d solidPatch3.resource_array 1 2 1 2) = some 1 := by
  decide

/-- Claim C2 as amended: the region-limited distance returns `+infinity`
when either patch's mask slice inside the rectangle is all zero (checking
the first patch first, short-circuiting), but when both patches have area
inside the rectangle and either patch's contour has no points left after
filtering, the call raises instead of returning `+infinity`. -/
theorem c2_within_region_amended :
    (∀ (p q : OrePatch) (sx sy ex ey : Int),
        amax2d (pySlice2d p.resource_array sy ey sx ex) = some 0 →
        calculate_min_distance_between_patches_within_region p q sx sy ex ey
          = DistOutcome.infinite) ∧
    (∀ (p q : OrePatch) (sx sy ex ey : Int) (a : Nat),
        amax2d (pySlice2d p.resource_array sy ey sx ex) = some a → a ≠ 0 →
        amax2d (pySlice2d q.resource_array sy ey sx ex) = some 0 →
        calculate_min_distance_between_patches_within_region p q sx sy ex ey
          = DistOutcome.infinite) ∧
    (∀ (p q : OrePatch) (sx sy ex ey : Int) (a b : Nat),
        amax2d (pySlice2d p.resource_array sy ey sx ex) = some a → a ≠ 0 →
        amax2d (pySlice2d q.resource_array sy ey sx ex) = some b → b ≠ 0 →
        contourWithinRegion p.contour sx sy ex ey = [] ∨
          contourWithinRegion q.contour sx sy ex ey = [] →
        calculate_min_distance_between_patches_within_region p q sx sy ex ey
          = DistOutcome.raised) := by
  refine ⟨fun p q sx sy ex ey h => ?_, fun p q sx sy ex ey a h ha h0 => ?_,
    fun p q sx sy ex ey a b h ha h0 hb hnil => ?_⟩
  · unfold calculate_min_distance_between_patches_within_region
    rw [h]
    simp
  · unfold calculate_min_distance_between_patches_within_region
    rw [h]
    simp [ha, h0]
  · unfold calculate_min_distance_between_patches_within_region
    rw [h]
    rcases hnil with hnil | hnil
    · simp [ha, h0, hb, hnil, contours_sq_nil_left]
    · simp [ha, h0, hb, hnil, contours_sq_nil_right]

/-- Witness for the amended C2 at concrete inputs: a patch with no area in
the region gives `+infinity`; `solidPatch3` with area but no contour points
in `[1,2) × [1,2)` gives `raised` as the first patch, and also gives
`raised` as the second patch when the first is a centre-pixel patch whose
filtered contour is non-empty. -/
theorem c2_within_region_amended_witness :
    calculate_min_distance_between_patches_within_region ⟨[[0]], []⟩ ⟨[[0]], []⟩ 0 0 1 1
        = DistOutcome.infinite ∧
      calculate_min_distance_between_patches_within_region solidPatch3 solidPatch3 1 1 2 2
        = DistOutcome.raised ∧
      calculate_min_distance_between_patches_within_region
          ⟨[[0, 0, 0], [0, 1, 0], [0, 0, 0]], [(1, 1)]⟩ solidPatch3 1 1 2 2
        = DistOutcome.raised :=
  ⟨c2_within_region_amended.1 ⟨[[0]], []⟩ ⟨[[0]], []⟩ 0 0 1 1 (by decide),
    c2_within_region_amended.2.2 solidPatch3 solidPatch3 1 1 2 2 1 1
      (by decide) (by decide) (by decide) (by decide) (Or.inl (by decide)),
    c2_within_region_amended.2.2 ⟨[[0, 0, 0], [0, 1, 0], [0, 0, 0]], [(1, 1)]⟩
      solidPatch3 1 1 2 2 1 1
      (by decide) (by decide) (by decide) (by decide) (Or.inr (by decide))⟩

/-- Claim C7 fails on the code: the marking pass of
`calculate_min_distance_between_patches_within_region` writes `-1` through
the column views into the cached contour, so after a call whose region
excludes some contour point the cache differs from its value before the
call (here the x-coordinates 2 become -1), contradicting the source's own
comment that the column slices are copies. -/
theorem c7_contour_cache_mutated :
    (contour_caches_after_within_region solidPatch3 solidPatch3 0 0 2 3).1
        ≠ solidPatch3.contour ∧
      (contour_caches_after_within_region solidPatch3 solidPatch3 0 0 2 3).1
        = [(0, 0), (1, 0), (-1, 0), (-1, 1), (-1, 2), (1, 2), (0, 2), (0, 1)] := by
  decide

/-! ### Claims C4, C8, C9: the Factorio coordinate wrapper -/

/-- `MapAnalyserFactorioCoordinateWrapper.min_x`:
`(-dimensions[1] // 2) * tiles_per_pixel` with Python floor division
(`dimensions = (height, width)`). -/
def wrapperMinX (hdim w s : Nat) : Int :=
  (Int.fdiv (-(w : Int)) 2) * s

/-- `MapAnalyserFactorioCoordinateWrapper.min_y`. -/
def wrapperMinY (hdim w s : Nat) : Int :=
  (Int.fdiv (-(hdim : Int)) 2) * s

/-- `MapAnalyserFactorioCoordinateWrapper.max_x`. -/
def wrapperMaxX (hdim w s : Nat) : Int :=
  (Int.fdiv (w : Int) 2) * s

/-- `MapAnalyserFactorioCoordinateWrapper.max_y`. -/
def wrapperMaxY (hdim w s : Nat) : Int :=
  (Int.fdiv (hdim : Int) 2) * s

/-- `is_in_bounds_x`. -/
def is_in_bounds_x (hdim w s : Nat) (x : Int) : Bool :=
  decide (wrapperMinX hdim w s ≤ x ∧ x ≤ wrapperMaxX hdim w s)

/-- `is_in_bounds_y`. -/
def is_in_bounds_y (hdim w s : Nat) (y : Int) : Bool :=
  decide (wrapperMinY hdim w s ≤ y ∧ y ≤ wrapperMaxY hdim w s)

/-- `is_in_bounds_point`. -/
def is_in_bounds_point (hdim w s : Nat) (pt : Int × Int) : Bool :=
  is_in_bounds_x hdim w s pt.1 && is_in_bounds_y hdim w s pt.2

/-- `_coordinate_region_to_pixel_region`: start corners round down
(Python `//`), end corners round up via `-((-end + min) // s)`. -/
def coordinate_region_to_pixel_region
    (hdim w s : Nat) (start_x start_y end_x end_y : Int) : Int × Int × Int × Int :=
  ((start_x - wrapperMinX hdim w s).fdiv s,
    (start_y - wrapperMinY hdim w s).fdiv s,
    -((-end_x + wrapperMinX hdim w s).fdiv s),
    -((-end_y + wrapperMinY hdim w s).fdiv s))

/-- `_pixel_region_to_coordinate_region`. -/
def pixel_region_to_coordinate_region
    (hdim w s : Nat) (start_x start_y end_x end_y : Int) : Int × Int × Int × Int :=
  (start_x * s + wrapperMinX hdim w s,
    start_y * s + wrapperMinY hdim w s,
    end_x * s + wrapperMinX hdim w s,
    end_y * s + wrapperMinY hdim w s)

/-- `MapAnalyser.count_resources_in_region` (pixel space):
`np.sum(resource_array[start_y:end_y, start_x:end_x])`. -/
def count_resources_in_region
    (mask : List (List Nat)) (start_x start_y end_x end_y : Int) : Nat :=
  sum2d (pySlice2d mask start_y end_y start_x end_x)

/-- `MapAnalyserFactorioCoordinateWrapper.count_resources_in_region`: convert
the tile region to a pixel region (no bounds check of any kind), call the
pixel-space analyser, scale the area by `tiles_per_pixel²`. -/
def wrapper_count_resources_in_region
    (mask : List (List Nat)) (hdim w s : Nat) (start_x start_y end_x end_y : Int) : Nat :=
  match coordinate_region_to_pixel_region hdim w s start_x start_y end_x end_y with
  | (sx_px, sy_px, ex_px, ey_px) =>
    s * s * count_resources_in_region mask sx_px sy_px ex_px ey_px

/-- `OrePatchCoordinateWrapper.size`: `size * tiles_per_pixel²`. -/
def wrapperPatchSize (p : OrePatch) (s : Nat) : Nat :=
  p.size * s * s

theorem ediv_bounds (x : Int) {s : Int} (hs : 0 < s) :
    s * (x / s) ≤ x ∧ x < s * (x / s) + s := by
  have h1 := Int.ediv_add_emod x s
  have h2 := Int.emod_nonneg x (ne_of_gt hs)
  have h3 := Int.emod_lt_of_pos x hs
  constructor <;> linarith

/-- Claim C8: converting an in-bounds tile region to pixels rounds the start
corner down and the end corner up (each start coordinate lies in the
half-open tile extent of its pixel, each end coordinate in the extent
ending at its pixel); converting the pixel region back to tiles contains
the original region; and re-converting the returned tile region yields the
same pixel region (idempotence). -/
theorem c8_region_conversion_expands_and_roundtrips
    (hdim w s : Nat) (hs : 0 < s) (sx sy ex ey px py qx qy : Int)
    (hconv : coordinate_region_to_pixel_region hdim w s sx sy ex ey = (px, py, qx, qy)) :
    ((s : Int) * px + wrapperMinX hdim w s ≤ sx ∧
        sx < (s : Int) * px + s + wrapperMinX hdim w s) ∧
      ((s : Int) * py + wrapperMinY hdim w s ≤ sy ∧
        sy < (s : Int) * py + s + wrapperMinY hdim w s) ∧
      (ex ≤ (s : Int) * qx + wrapperMinX hdim w s ∧
        (s : Int) * qx - s + wrapperMinX hdim w s < ex) ∧
      (ey ≤ (s : Int) * qy + wrapperMinY hdim w s ∧
        (s : Int) * qy - s + wrapperMinY hdim w s < ey) ∧
      ((pixel_region_to_coordinate_region hdim w s px py qx qy).1 ≤ sx ∧
        (pixel_region_to_coordinate_region hdim w s px py qx qy).2.1 ≤ sy ∧
        ex ≤ (pixel_region_to_coordinate_region hdim w s px py qx qy).2.2.1 ∧
        ey ≤ (pixel_region_to_coordinate_region hdim w s px py qx qy).2.2.2) ∧
      coordinate_region_to_pixel_region hdim w s
          (px * s + wrapperMinX hdim w s) (py * s + wrapperMinY hdim w s)
          (qx * s + wrapperMinX hdim w s) (qy * s + wrapperMinY hdim w s)
        = (px, py, qx, qy) := by
  have hs0 : (s : Int) ≠ 0 := by
    exact_mod_cast Nat.pos_iff_ne_zero.mp hs
  have hsle : (0 : Int) ≤ s := by positivity
  have hspos : (0 : Int) < s := by
    exact_mod_cast hs
  set mX := wrapperMinX hdim w s with hmX
  set mY := wrapperMinY hdim w s with hmY
  unfold coordinate_region_to_pixel_region at hconv
  rw [Int.fdiv_eq_ediv _ hsle, Int.fdiv_eq_ediv _ hsle, Int.fdiv_eq_ediv _ hsle,
    Int.fdiv_eq_ediv _ hsle, Prod.mk.injEq, Prod.mk.injEq, Prod.mk.injEq] at hconv
  obtain ⟨hpx, hpy, hqx, hqy⟩ := hconv
  subst hpx hpy hqx hqy
  have b1 := ediv_bounds (sx - mX) hspos
  have b2 := ediv_bounds (sy - mY) hspos
  have b3 := ediv_bounds (-ex + mX) hspos
  have b4 := ediv_bounds (-ey + mY) hspos
  refine ⟨⟨by linarith, by linarith⟩, ⟨by linarith, by linarith⟩, ?_, ?_, ?_, ?_⟩
  · constructor <;> · simp only [mul_neg]; linarith
  · constructor <;> · simp only [mul_neg]; linarith
  · unfold pixel_region_to_coordinate_region
    rw [← hmX, ← hmY]
    dsimp only
    refine ⟨?_, ?_, ?_, ?_⟩
    · have hcomm : (sx - mX) / s * (s : Int) = s * ((sx - mX) / s) := mul_comm _ _
      linarith
    · have hcomm : (sy - mY) / s * (s : Int) = s * ((sy - mY) / s) := mul_comm _ _
      linarith
    · have hcomm : -((-ex + mX) / s) * (s : Int) = -(s * ((-ex + mX) / s)) := by ring
      linarith
    · have hcomm : -((-ey + mY) / s) * (s : Int) = -(s * ((-ey + mY) / s)) := by ring
      linarith
  · unfold coordinate_region_to_pixel_region
    rw [← hmX, ← hmY]
    rw [Int.fdiv_eq_ediv _ hsle, Int.fdiv_eq_ediv _ hsle, Int.fdiv_eq_ediv _ hsle,
      Int.fdiv_eq_ediv _ hsle, Prod.mk.injEq, Prod.mk.injEq, Prod.mk.injEq]
    refine ⟨?_, ?_, ?_, ?_⟩
    · rw [show (sx - mX) / s * (s : Int) + mX - mX = (sx - mX) / s * s by ring,
        Int.mul_ediv_cancel _ hs0]
    · rw [show (sy - mY) / s * (s : Int) + mY - mY = (sy - mY) / s * s by ring,
        Int.mul_ediv_cancel _ hs0]
    · rw [show -(-((-ex + mX) / s) * (s : Int) + mX) + mX = ((-ex + mX) / s) * s by ring,
        Int.mul_ediv_cancel _ hs0]
    · rw [show -(-((-ey + mY) / s) * (s : Int) + mY) + mY = ((-ey + mY) / s) * s by ring,
        Int.mul_ediv_cancel _ hs0]

/-- Witness for C8 on a concrete 2×2-pixel map with scale 8 and the
unaligned tile region (1, 1, 7, 7). -/
theorem c8_region_conversion_expands_and_roundtrips_witness :
    ((8 : Int) * 1 + wrapperMinX 2 2 8 ≤ 1 ∧
        (1 : Int) < (8 : Int) * 1 + 8 + wrapperMinX 2 2 8) ∧
      ((8 : Int) * 1 + wrapperMinY 2 2 8 ≤ 1 ∧
        (1 : Int) < (8 : Int) * 1 + 8 + wrapperMinY 2 2 8) ∧
      ((7 : Int) ≤ (8 : Int) * 2 + wrapperMinX 2 2 8 ∧
        (8 : Int) * 2 - 8 + wrapperMinX 2 2 8 < 7) ∧
      ((7 : Int) ≤ (8 : Int) * 2 + wrapperMinY 2 2 8 ∧
        (8 : Int) * 2 - 8 + wrapperMinY 2 2 8 < 7) ∧
      ((pixel_region_to_coordinate_region 2 2 8 1 1 2 2).1 ≤ 1 ∧
        (pixel_region_to_coordinate_region 2 2 8 1 1 2 2).2.1 ≤ 1 ∧
        (7 : Int) ≤ (pixel_region_to_coordinate_region 2 2 8 1 1 2 2).2.2.1 ∧
        (7 : Int) ≤ (pixel_region_to_coordinate_region 2 2 8 1 1 2 2).2.2.2) ∧
      coordinate_region_to_pixel_region 2 2 8
          (1 * 8 + wrapperMinX 2 2 8) (1 * 8 + wrapperMinY 2 2 8)
          (2 * 8 + wrapperMinX 2 2 8) (2 * 8 + wrapperMinY 2 2 8)
        = (1, 1, 2, 2) :=
  c8_region_conversion_expands_and_roundtrips 2 2 8 (by decide) 1 1 7 7 1 1 2 2 (by decide)

/-- Counterexample to claim C9: for an odd image width (3 pixels, scale 1)
the code's `min_x = (-width // 2) * s` is `-2` (Python floor division of a
negative numerator rounds towards minus infinity), not the claimed
`(-⌊width / 2⌋) * s = -1`. -/
theorem c9_bounds_counterexample :
    wrapperMinX 3 3 1 = -2 ∧
      -(((3 / 2 : Nat) : Int)) * 1 = -1 ∧
      wrapperMinX 3 3 1 ≠ -(((3 / 2 : Nat) : Int)) * 1 := by
  decide

/-- Claim C9 as amended: the wrapper bounds are
`min_x = -⌈width / 2⌉ · s` (Python `(-width) // 2` is `-⌈width / 2⌉`, which
differs from the claimed `-⌊width / 2⌋` for odd dimensions),
`max_x = ⌊width / 2⌋ · s`, and likewise for y with the height; a patch of
`n` set pixels has tile-space size `n · s²`; the end-to-end example is a
96×96-pixel raster at scale 8 (covering 768×768 tiles — a literal 768×768
pixel raster at scale 8 would give bounds ±3072, not ±384), which gives
bounds ±384, and a 3328-pixel patch has tile size `3328 · 64`. -/
theorem c9_bounds_and_size_amended (hdim w s : Nat) :
    wrapperMinX hdim w s = -((((w + 1) / 2 : Nat) : Int)) * s ∧
      wrapperMinY hdim w s = -((((hdim + 1) / 2 : Nat) : Int)) * s ∧
      wrapperMaxX hdim w s = (((w / 2 : Nat) : Int)) * s ∧
      wrapperMaxY hdim w s = (((hdim / 2 : Nat) : Int)) * s ∧
      (∀ (p : OrePatch) (n : Nat), p.size = n → wrapperPatchSize p s = n * s * s) ∧
      (wrapperMinX 96 96 8 = -384 ∧ wrapperMinY 96 96 8 = -384 ∧
        wrapperMaxX 96 96 8 = 384 ∧ wrapperMaxY 96 96 8 = 384) ∧
      (∀ p : OrePatch, p.size = 3328 → wrapperPatchSize p 8 = 3328 * 64) := by
  have h2 : (0 : Int) ≤ 2 := by norm_num
  refine ⟨?_, ?_, ?_, ?_, ?_, by decide, ?_⟩
  · unfold wrapperMinX
    rw [Int.fdiv_eq_ediv _ h2]
    refine congrArg (· * (s : Int)) ?_
    omega
  · unfold wrapperMinY
    rw [Int.fdiv_eq_ediv _ h2]
    refine congrArg (· * (s : Int)) ?_
    omega
  · unfold wrapperMaxX
    rw [Int.fdiv_eq_ediv _ h2]
    refine congrArg (· * (s : Int)) ?_
    omega
  · unfold wrapperMaxY
    rw [Int.fdiv_eq_ediv _ h2]
    refine congrArg (· * (s : Int)) ?_
    omega
  · intro p n hp
    unfold wrapperPatchSize
    rw [hp]
  · intro p hp
    unfold wrapperPatchSize
    rw [hp]

/-- Witness for the amended C9 on a 5×3 image with scale 2 and a concrete
4-pixel patch with scale 8. -/
theorem c9_bounds_and_size_amended_witness :
    wrapperMinX 5 3 2 = -((((3 + 1) / 2 : Nat) : Int)) * 2 ∧
      wrapperMinY 5 3 2 = -((((5 + 1) / 2 : Nat) : Int)) * 2 ∧
      wrapperMaxX 5 3 2 = (((3 / 2 : Nat) : Int)) * 2 ∧
      wrapperMaxY 5 3 2 = (((5 / 2 : Nat) : Int)) * 2 ∧
      wrapperPatchSize ⟨[[1, 1], [1, 1]], []⟩ 8 = 4 * 8 * 8 :=
  ⟨(c9_bounds_and_size_amended 5 3 2).1, (c9_bounds_and_size_amended 5 3 2).2.1,
    (c9_bounds_and_size_amended 5 3 2).2.2.1, (c9_bounds_and_size_amended 5 3 2).2.2.2.1,
    (c9_bounds_and_size_amended 5 3 8).2.2.2.2.1 ⟨[[1, 1], [1, 1]], []⟩ 4 (by decide)⟩

/-- Counterexample to claim C4: on a 2×2-pixel map at scale 8 (tile bounds
±8), the tile region starting at x = −100 is far outside the bounds, yet
`count_resources_in_region` is not rejected: it converts the region, the
Python slice silently clamps, and the call returns the ordinary value 256
(the whole map).  A degenerate region with `start_x = end_x = 1` is not
rejected either and returns the positive value 128. -/
theorem c4_no_bounds_rejection_counterexample :
    is_in_bounds_point 2 2 8 (-100, -8) = false ∧
      wrapper_count_resources_in_region [[1, 1], [1, 1]] 2 2 8 (-100) (-8) 8 8 = 256 ∧
      wrapper_count_resources_in_region [[1, 1], [1, 1]] 2 2 8 1 (-8) 1 8 = 128 := by
  decide

theorem pyIdx_eq_zero_of_len_add_nonpos (n : Nat) (a : Int)
    (h : (n : Int) + a ≤ 0) : pyIdx n a = 0 := by
  unfold pyIdx
  split <;> omega

theorem pyIdx_zero (n : Nat) : pyIdx n 0 = 0 := by
  unfold pyIdx
  split <;> omega

theorem pySliceList_start_clamps {α : Type} (row : List α) (a b : Int)
    (h : (row.length : Int) + a ≤ 0) :
    pySliceList row a b = pySliceList row 0 b := by
  unfold pySliceList
  rw [pyIdx_eq_zero_of_len_add_nonpos row.length a h, pyIdx_zero]

/-- Claim C4 as amended: the wrapper's tile-space queries perform no bounds
validation at all — `is_in_bounds_x/y/point` exist and correctly decide
membership in `[min, max]`, but the query methods never call them; any
region is converted unconditionally and resolved by Python slice
semantics, so a start coordinate whose converted pixel column lies at or
below `-width` is silently clamped to the left image edge (the same result
as querying from `min_x`). -/
theorem c4_no_bounds_rejection_amended :
    (∀ (hdim w s : Nat) (x y : Int),
        is_in_bounds_point hdim w s (x, y) = true ↔
          (wrapperMinX hdim w s ≤ x ∧ x ≤ wrapperMaxX hdim w s ∧
            wrapperMinY hdim w s ≤ y ∧ y ≤ wrapperMaxY hdim w s)) ∧
    (∀ (mask : List (List Nat)) (hdim w s : Nat) (sx sy ex ey : Int),
        (∀ row ∈ mask, (row.length : Int) + (sx - wrapperMinX hdim w s).fdiv s ≤ 0) →
        wrapper_count_resources_in_region mask hdim w s sx sy ex ey
          = wrapper_count_resources_in_region mask hdim w s
              (wrapperMinX hdim w s) sy ex ey) := by
  constructor
  · intro hdim w s x y
    simp [is_in_bounds_point, is_in_bounds_x, is_in_bounds_y, and_assoc]
  · intro mask hdim w s sx sy ex ey hfar
    unfold wrapper_count_resources_in_region coordinate_region_to_pixel_region
    dsimp only
    rw [sub_self, Int.zero_fdiv]
    refine congrArg (fun n => s * s * n) ?_
    unfold count_resources_in_region pySlice2d sum2d
    rw [List.map_map, List.map_map]
    refine congrArg List.sum ?_
    refine List.map_congr_left (fun row hrow => ?_)
    have hmem : row ∈ mask := by
      unfold pySliceList at hrow
      exact List.mem_of_mem_take (List.mem_of_mem_drop hrow)
    simp only [Function.comp]
    rw [pySliceList_start_clamps row _ _ (hfar row hmem)]

/-- Witness for the amended C4: the bounds predicate decides membership at
a concrete point, and a far-out-of-range start column (x = −100 on the
2×2-pixel, scale-8 map) is silently clamped to the query from `min_x`. -/
theorem c4_no_bounds_rejection_amended_witness :
    (is_in_bounds_point 2 2 8 ((-100 : Int), (-8 : Int)) = true ↔
      (wrapperMinX 2 2 8 ≤ -100 ∧ (-100 : Int) ≤ wrapperMaxX 2 2 8 ∧
        wrapperMinY 2 2 8 ≤ -8 ∧ (-8 : Int) ≤ wrapperMaxY 2 2 8)) ∧
      wrapper_count_resources_in_region [[1, 1], [1, 1]] 2 2 8 (-100) (-8) 8 8
        = wrapper_count_resources_in_region [[1, 1], [1, 1]] 2 2 8
            (wrapperMinX 2 2 8) (-8) 8 8 :=
  ⟨c4_no_bounds_rejection_amended.1 2 2 8 (-100) (-8),
    c4_no_bounds_rejection_amended.2 [[1, 1], [1, 1]] 2 2 8 (-100) (-8) 8 8
      (by decide)⟩

/-! ### Claim C10: centroid of an empty patch -/

/-- `cv2.moments` zeroth-order moment `m00` of a binary mask. -/
def momentM00 (mask : List (List Nat)) : Nat :=
  sum2d mask

/-- `cv2.moments` first-order moment `m10` (sum of x · value). -/
def momentM10 (mask : List (List Nat)) : Nat :=
  (mask.map (fun row => (row.enum.map (fun pr => pr.1 * pr.2)).sum)).sum

/-- `cv2.moments` first-order moment `m01` (sum of y · value). -/
def momentM01 (mask : List (List Nat)) : Nat :=
  (mask.enum.map (fun pr => pr.1 * pr.2.sum)).sum

/-- `OrePatch.center_point`: `(m10 / m00, m01 / m00)`.  When `m00 = 0` the
Python division `moments["m10"] / moments["m00"]` raises
`ZeroDivisionError`; that branch is modelled by `Except.error`. -/
def OrePatch.center_point (p : OrePatch) : Except Unit (Rat × Rat) :=
  if momentM00 p.resource_array = 0 then .error ()
  else .ok ((momentM10 p.resource_array : Rat) / (momentM00 p.resource_array : Rat),
    (momentM01 p.resource_array : Rat) / (momentM00 p.resource_array : Rat))

/-- Claim C10: for every patch of size 0 (all-zero mask) the zeroth-order
moment is 0, so accessing `center_point` reaches the division-by-zero
branch instead of producing any sentinel centroid value. -/
theorem c10_center_point_of_empty_patch_divides_by_zero (p : OrePatch)
    (hsize : p.size = 0) :
    momentM00 p.resource_array = 0 ∧ p.center_point = Except.error () := by
  have h00 : momentM00 p.resource_array = 0 := hsize
  refine ⟨h00, ?_⟩
  unfold OrePatch.center_point
  rw [if_pos h00]

/-- Witness for C10 at a concrete all-zero 1×2 mask. -/
theorem c10_center_point_of_empty_patch_divides_by_zero_witness :
    momentM00 (OrePatch.mk [[0, 0]] []).resource_array = 0 ∧
      (OrePatch.mk [[0, 0]] []).center_point = Except.error () :=
  c10_center_point_of_empty_patch_divides_by_zero ⟨[[0, 0]], []⟩ (by decide)

/-! ### Claim C6: patches of one resource type partition its combined mask -/

/-- `cv2.inRange(image, color, color) // 255`: the binary mask selecting the
pixels whose color equals `color` exactly (the RGB→BGR reversal in the
source is a bijection on colors and immaterial to the whole-pixel
comparison). -/
def inRangeMask (image : List (List (Nat × Nat × Nat))) (color : Nat × Nat × Nat) :
    List (List Nat) :=
  image.map (List.map (fun c => if c = color then 1 else 0))

/-- `(image_of_labels == label_value).astype(np.uint8)`: the mask of one
connected-component label. -/
def labelMask (labels : List (List Nat)) (k : Nat) : List (List Nat) :=
  labels.map (List.map (fun v => if v = k then 1 else 0))

/-- `_find_all_ore_patches` for one resource type: one mask per label value
`1 .. num_of_labels - 1` of the `cv2.connectedComponents` output (label 0
is background). -/
def orePatchMasksOfLabels (labels : List (List Nat)) (num_of_labels : Nat) :
    List (List (List Nat)) :=
  (List.range' 1 (num_of_labels - 1)).map (labelMask labels)

/-- Elementwise union (maximum) of two same-shaped binary masks. -/
def maskUnion (a b : List (List Nat)) : List (List Nat) :=
  List.zipWith (List.zipWith max) a b

/-- Elementwise union of a list of masks over an all-zero base of the same
shape as `base`. -/
def unionMasks (ms : List (List (List Nat))) (base : List (List Nat)) :
    List (List Nat) :=
  ms.foldr maskUnion (base.map (List.map (fun _ => 0)))

theorem maskUnion_map2d (labels : List (List Nat)) (f g : Nat → Nat) :
    maskUnion (labels.map (List.map f)) (labels.map (List.map g))
      = labels.map (List.map (fun v => max (f v) (g v))) := by
  unfold maskUnion
  rw [zipWith_map_same]
  refine List.map_congr_left (fun row _ => ?_)
  exact zipWith_map_same _ _ _ row

theorem unionMasks_labelMasks (labels : List (List Nat)) (ks : List Nat) :
    unionMasks (ks.map (labelMask labels)) labels
      = labels.map (List.map (fun v => if v ∈ ks then 1 else 0)) := by
  induction ks with
  | nil =>
    unfold unionMasks
    simp
  | cons k ks ih =>
    show maskUnion (labelMask labels k) (unionMasks (ks.map (labelMask labels)) labels) = _
    rw [ih]
    unfold labelMask
    rw [maskUnion_map2d]
    refine List.map_congr_left (fun row _ => ?_)
    refine List.map_congr_left (fun v _ => ?_)
    by_cases hk : v = k
    · subst hk
      by_cases hm : v ∈ ks <;> simp [hm]
    · by_cases hm : v ∈ ks <;> simp [hk, hm]

theorem sum2d_map2d_add (labels : List (List Nat)) (f g : Nat → Nat) :
    sum2d (labels.map (List.map (fun v => f v + g v)))
      = sum2d (labels.map (List.map f)) + sum2d (labels.map (List.map g)) := by
  unfold sum2d
  simp only [List.map_map, Function.comp]
  induction labels with
  | nil => rfl
  | cons row rest ih =>
    simp only [List.map_cons, List.sum_cons, ih, List.sum_map_add, Function.comp]
    omega

theorem sum2d_map2d_zero (labels : List (List Nat)) :
    sum2d (labels.map (List.map (fun _ => 0))) = 0 := by
  unfold sum2d
  induction labels with
  | nil => rfl
  | cons row rest ih =>
    simp only [List.map_cons, List.sum_cons, ih]
    simp [List.map_const]

theorem sizes_sum_labelMasks (labels : List (List Nat)) (ks : List Nat)
    (hnd : ks.Nodup) :
    ((ks.map (labelMask labels)).map sum2d).sum
      = sum2d (labels.map (List.map (fun v => if v ∈ ks then 1 else 0))) := by
  induction ks with
  | nil =>
    simp only [List.map_nil, List.sum_nil]
    rw [show (fun v : Nat => if v ∈ ([] : List Nat) then 1 else 0) = fun _ => 0 by
      funext v; simp]
    exact (sum2d_map2d_zero labels).symm
  | cons k ks ih =>
    have hk : k ∉ ks := (List.nodup_cons.mp hnd).1
    have hnd' : ks.Nodup := (List.nodup_cons.mp hnd).2
    simp only [List.map_cons, List.sum_cons]
    rw [ih hnd']
    rw [show (fun v : Nat => if v ∈ k :: ks then 1 else 0)
        = fun v => (if v = k then 1 else 0) + (if v ∈ ks then 1 else 0) by
      funext v
      by_cases hvk : v = k
      · subst hvk
        simp [hk]
      · by_cases hvm : v ∈ ks <;> simp [hvk, hvm]]
    rw [sum2d_map2d_add]
    rfl

/-- Claim C6: if `cv2.connectedComponents` returns a labelling in which a
pixel has a label in `1 .. num_of_labels - 1` exactly when the combined
mask `inRangeMask image color` is 1 there (its documented contract, with
label 0 the background), then the elementwise union of the per-patch masks
equals the combined mask, and the sum of the patch sizes equals the
combined patch's size. -/
theorem c6_patches_partition_combined_mask
    (image : List (List (Nat × Nat × Nat))) (color : Nat × Nat × Nat)
    (labels : List (List Nat)) (num_of_labels : Nat)
    (hn : 1 ≤ num_of_labels)
    (hlab : inRangeMask image color
      = labels.map (List.map (fun v => if 1 ≤ v ∧ v < num_of_labels then 1 else 0))) :
    unionMasks (orePatchMasksOfLabels labels num_of_labels) labels
        = inRangeMask image color ∧
      ((orePatchMasksOfLabels labels num_of_labels).map sum2d).sum
        = sum2d (inRangeMask image color) := by
  have hfun : (fun v : Nat => if v ∈ List.range' 1 (num_of_labels - 1) then 1 else 0)
      = fun v : Nat => if 1 ≤ v ∧ v < num_of_labels then 1 else 0 := by
    funext v
    by_cases h : 1 ≤ v ∧ v < num_of_labels
    · rw [if_pos (by rw [List.mem_range'_1]; omega), if_pos h]
    · rw [if_neg (by rw [List.mem_range'_1]; omega), if_neg h]
  constructor
  · unfold orePatchMasksOfLabels
    rw [unionMasks_labelMasks, hlab, hfun]
  · unfold orePatchMasksOfLabels
    rw [sizes_sum_labelMasks labels _ (List.nodup_range' 1 (num_of_labels - 1)),
      hlab, hfun]

/-- Witness for C6 on a concrete 2×2 image with one matching color and two
single-pixel patches (labels 1 and 2, `num_of_labels = 3`). -/
theorem c6_patches_partition_combined_mask_witness :
    unionMasks (orePatchMasksOfLabels [[1, 0], [0, 2]] 3) [[1, 0], [0, 2]]
        = inRangeMask [[(1, 2, 3), (9, 9, 9)], [(9, 9, 9), (1, 2, 3)]] (1, 2, 3) ∧
      ((orePatchMasksOfLabels [[1, 0], [0, 2]] 3).map sum2d).sum
        = sum2d (inRangeMask [[(1, 2, 3), (9, 9, 9)], [(9, 9, 9), (1, 2, 3)]] (1, 2, 3)) :=
  c6_patches_partition_combined_mask
    [[(1, 2, 3), (9, 9, 9)], [(9, 9, 9), (1, 2, 3)]] (1, 2, 3)
    [[1, 0], [0, 2]] 3 (by decide) (by decide)

/-! ### Claims C3 and C5: the adaptive longest-corridor search -/

/-- `cv2.BORDER_REFLECT_101` index mapping (period `2n - 2`; the edge pixel
is not repeated).  Only non-negative offsets occur because the filter
anchor is (0, 0). -/
def reflect101 (n i : Nat) : Nat :=
  if n ≤ 1 then 0
  else
    let p := 2 * n - 2
    let m := i % p
    if m < n then m else p - m

/-- Read with `BORDER_REFLECT_101` extrapolation (the default border of the
horizontal `cv2.filter2D` call) on an image of logical size `yL × xL`. -/
def readReflect (arr : List (List Nat)) (yL xL i j : Nat) : Nat :=
  readPx arr (reflect101 yL i) (reflect101 xL j)

/-- Read with `BORDER_CONSTANT` 0 extrapolation (the border of the vertical
`cv2.filter2D` call). -/
def readZero (arr : List (List Nat)) (yL xL i j : Nat) : Nat :=
  if i < yL ∧ j < xL then readPx arr i j else 0

/-- Sum of a `kr × kc` window anchored at `(i, j)` (filter2D correlation
with an all-ones kernel and anchor (0, 0)). -/
def windowSumWith (read : Nat → Nat → Nat) (kr kc i j : Nat) : Nat :=
  ((List.range kr).map (fun di => ((List.range kc).map (fun dj => read (i + di) (j + dj))).sum)).sum

/-- `cv2.filter2D(resource_array, -1, np.ones((t, l)), anchor=(0,0))`: the
output has the input's shape and, the input being `uint8`, every window
sum saturates at 255 (`ddepth = -1` keeps the 8-bit depth). -/
def dstHorizontal (arr : List (List Nat)) (t l yL xL : Nat) : List (List Nat) :=
  (List.range yL).map (fun i =>
    (List.range xL).map (fun j => min (windowSumWith (readReflect arr yL xL) t l i j) 255))

/-- The transposed-kernel call
`cv2.filter2D(resource_array, -1, kernel.transpose(), anchor=(0,0),
borderType=cv2.BORDER_CONSTANT)`: `l × t` windows with zero padding,
saturated at 255. -/
def dstVertical (arr : List (List Nat)) (t l yL xL : Nat) : List (List Nat) :=
  (List.range yL).map (fun i =>
    (List.range xL).map (fun j => min (windowSumWith (readZero arr yL xL) l t i j) 255))

/-- `dst_horizontal`: the filtered array sliced to
`[0 : y_length - thickness + 1, 0 : x_length - max_length + 1]`. -/
def dstHorizontalSliced (arr : List (List Nat)) (t l yL xL : Nat) : List (List Nat) :=
  pySlice2d (dstHorizontal arr t l yL xL) 0 ((yL : Int) - t + 1) 0 ((xL : Int) - l + 1)

/-- `dst_vertical`: sliced to
`[0 : y_length - max_length + 1, 0 : x_length - thickness + 1]`. -/
def dstVerticalSliced (arr : List (List Nat)) (t l yL xL : Nat) : List (List Nat) :=
  pySlice2d (dstVertical arr t l yL xL) 0 ((yL : Int) - l + 1) 0 ((xL : Int) - t + 1)

/-- The `while True` loop of `find_longest_consecutive_line_of_resources`.
The fuel only bounds the iteration count (`max_length` strictly decreases,
so `l + 1` steps always suffice from length `l`); `t = 0` or `l = 0` gives
an empty `np.ones((thickness, max_length))` kernel, on which `cv2.filter2D`
raises an OpenCV assertion — modelled as `.error`, like the `ValueError`
of `np.amax` on an empty slice.  On `break` the loop's local state
`(max_length, is_vertically_orientated, area_with_resources, dst)` is
returned. -/
def lineSearchLoop (arr : List (List Nat)) (t tol yL xL : Nat) :
    Nat → Nat → Except Unit (Nat × Bool × Nat × List (List Nat))
  | 0, _ => .error ()
  | fuel + 1, l =>
    if t = 0 ∨ l = 0 then .error ()
    else
      match amax2d (dstHorizontalSliced arr t l yL xL) with
      | none => .error ()
      | some aH =>
        match amax2d (dstVerticalSliced arr t l yL xL) with
        | none => .error ()
        | some aV =>
          let area := if aH < aV then aV else aH
          if area + tol < l * t then lineSearchLoop arr t tol yL xL fuel ((area + tol) / t)
          else
            .ok (l, decide (aH < aV), area,
              if aH < aV then dstVerticalSliced arr t l yL xL
              else dstHorizontalSliced arr t l yL xL)

/-- First index of `a` in `row` (`np.where` reports indices in order). -/
def findIdxRow (row : List Nat) (a : Nat) : Option Nat :=
  match row with
  | [] => none
  | v :: rest => if v = a then some 0 else (findIdxRow rest a).map (· + 1)

/-- Row-major first position of `a` in `m`:
`list(zip(result[1], result[0]))[0]` of `np.where(dst == a)`, as the pair
`(row, column)`; `none` models the `IndexError` when there is no match. -/
def findIdx2d (m : List (List Nat)) (a : Nat) : Option (Nat × Nat) :=
  match m with
  | [] => none
  | row :: rest =>
    match findIdxRow row a with
    | some j => some (0, j)
    | none => (findIdx2d rest a).map (fun pr => (pr.1 + 1, pr.2))

/-- `MapAnalyser.find_longest_consecutive_line_of_resources`.  The region
coordinates are taken as natural numbers (the callers pass in-bounds pixel
regions).  Returns the length and the absolute region of the best window;
`.error` models an escaping OpenCV/numpy exception. -/
def find_longest_consecutive_line_of_resources
    (mask : List (List Nat)) (t tol sx sy ex ey : Nat) :
    Except Unit (Nat × (Nat × Nat × Nat × Nat)) :=
  let resource_array := pySlice2d mask (sy : Int) (ey : Int) (sx : Int) (ex : Int)
  let x_length := ex - sx
  let y_length := ey - sy
  let l0 := max x_length y_length
  match lineSearchLoop resource_array t tol y_length x_length (l0 + 1) l0 with
  | .error _ => .error ()
  | .ok (l, vert, area, dst) =>
    match findIdx2d dst area with
    | none => .error ()
    | some (i, j) =>
      let x := j + sx
      let y := i + sy
      .ok (l, if vert then (x, y, x + t, y + l) else (x, y, x + l, y + t))

/-- Claim C3 fails on the code: on a 3×3 all-zero resource region with
thickness 1 and tolerance 0 no window satisfies the constraint, and the
search raises (the shrink step sets `max_length = 0` and the next
iteration builds the empty kernel `np.ones((1, 0))`, an OpenCV assertion
failure) instead of returning `(0, None)` as the wrapper's
`if region is None` handler and its docstring expect. -/
theorem c3_no_corridor_raises_instead_of_zero_none :
    find_longest_consecutive_line_of_resources
        [[0, 0, 0], [0, 0, 0], [0, 0, 0]] 1 0 0 0 3 3 = .error () := by
  rfl

/-- Maximum of a list of naturals (0 for the empty list). -/
def maxNat (l : List Nat) : Nat :=
  l.foldl max 0

/-- Reference (spec) list of saturated resource counts of every horizontal
`t × l` window fully inside the region. -/
def bestCountsH (arr : List (List Nat)) (t l yL xL : Nat) : List Nat :=
  ((List.range (yL - t + 1)).map (fun i =>
    (List.range (xL - l + 1)).map
      (fun j => min (windowSumWith (readPx arr) t l i j) 255))).flatten

/-- Reference (spec) list of saturated resource counts of every vertical
`l × t` window fully inside the region. -/
def bestCountsV (arr : List (List Nat)) (t l yL xL : Nat) : List Nat :=
  ((List.range (yL - l + 1)).map (fun i =>
    (List.range (xL - t + 1)).map
      (fun j => min (windowSumWith (readPx arr) l t i j) 255))).flatten

/-- Reference (spec) best achievable count at length `l`: the maximum over
all windows of both orientations. -/
def bestCount (arr : List (List Nat)) (t l yL xL : Nat) : Nat :=
  maxNat (bestCountsH arr t l yL xL ++ bestCountsV arr t l yL xL)

/-- Reference (spec) shrinking sequence: starting from `l`, if
`bestCount l + tolerance < l · t` shrink to
`(bestCount l + tolerance) / t` and repeat, else stop at `l` (0 when the
sequence reaches 0: no positive length satisfies the constraint). -/
def specFirstLen (arr : List (List Nat)) (t tol yL xL : Nat) : Nat → Nat → Nat
  | 0, _ => 0
  | fuel + 1, l =>
    if bestCount arr t l yL xL + tol < l * t then
      specFirstLen arr t tol yL xL fuel ((bestCount arr t l yL xL + tol) / t)
    else l

theorem reflect101_id (n i : Nat) (h : i < n) : reflect101 n i = i := by
  unfold reflect101
  rcases le_or_lt n 1 with h1 | h1
  · rw [if_pos h1]
    omega
  · rw [if_neg (by omega)]
    show (if i % (2 * n - 2) < n then i % (2 * n - 2) else 2 * n - 2 - i % (2 * n - 2)) = i
    have hp : i % (2 * n - 2) = i := Nat.mod_eq_of_lt (by omega)
    rw [hp, if_pos h]

theorem windowSumWith_congr (r1 r2 : Nat → Nat → Nat) (kr kc i j : Nat)
    (h : ∀ di < kr, ∀ dj < kc, r1 (i + di) (j + dj) = r2 (i + di) (j + dj)) :
    windowSumWith r1 kr kc i j = windowSumWith r2 kr kc i j := by
  unfold windowSumWith
  refine congrArg List.sum ?_
  refine List.map_congr_left (fun di hdi => ?_)
  refine congrArg List.sum ?_
  refine List.map_congr_left (fun dj hdj => ?_)
  exact h di (List.mem_range.mp hdi) dj (List.mem_range.mp hdj)

theorem pyIdx_natCast (n k : Nat) : pyIdx n (k : Int) = min k n := by
  unfold pyIdx
  split <;> omega

theorem pySliceList_zero_natCast {α : Type} (l : List α) (b : Nat) :
    pySliceList l 0 (b : Int) = l.take (min b l.length) := by
  unfold pySliceList
  rw [pyIdx_zero, pyIdx_natCast, List.drop_zero]

theorem take_range_map {β : Type} (f : Nat → β) (R C : Nat) (h : C ≤ R) :
    ((List.range R).map f).take C = (List.range C).map f := by
  rw [← List.map_take, List.take_range, min_eq_left h]

theorem sliceH_eq (arr : List (List Nat)) (t l yL xL : Nat)
    (ht1 : 1 ≤ t) (htY : t ≤ yL) (hl1 : 1 ≤ l) (hlX : l ≤ xL) :
    dstHorizontalSliced arr t l yL xL
      = (List.range (yL - t + 1)).map (fun i =>
          (List.range (xL - l + 1)).map
            (fun j => min (windowSumWith (readPx arr) t l i j) 255)) := by
  unfold dstHorizontalSliced pySlice2d dstHorizontal
  rw [show ((yL : Int) - t + 1) = ((yL - t + 1 : Nat) : Int) by omega,
    show ((xL : Int) - l + 1) = ((xL - l + 1 : Nat) : Int) by omega,
    pySliceList_zero_natCast]
  rw [List.length_map, List.length_range, min_eq_left (by omega)]
  rw [take_range_map _ _ _ (by omega), List.map_map]
  refine List.map_congr_left (fun i hi => ?_)
  simp only [Function.comp]
  rw [pySliceList_zero_natCast, List.length_map, List.length_range,
    min_eq_left (by omega), take_range_map _ _ _ (by omega)]
  refine List.map_congr_left (fun j hj => ?_)
  refine congrArg (fun v => min v 255) ?_
  refine windowSumWith_congr _ _ _ _ _ _ (fun di hdi dj hdj => ?_)
  have hi' : i < yL - t + 1 := List.mem_range.mp hi
  have hj' : j < xL - l + 1 := List.mem_range.mp hj
  unfold readReflect
  rw [reflect101_id yL (i + di) (by omega), reflect101_id xL (j + dj) (by omega)]

theorem sliceV_eq (arr : List (List Nat)) (t l yL xL : Nat)
    (ht1 : 1 ≤ t) (htX : t ≤ xL) (hl1 : 1 ≤ l) (hlY : l ≤ yL) :
    dstVerticalSliced arr t l yL xL
      = (List.range (yL - l + 1)).map (fun i =>
          (List.range (xL - t + 1)).map
            (fun j => min (windowSumWith (readPx arr) l t i j) 255)) := by
  unfold dstVerticalSliced pySlice2d dstVertical
  rw [show ((yL : Int) - l + 1) = ((yL - l + 1 : Nat) : Int) by omega,
    show ((xL : Int) - t + 1) = ((xL - t + 1 : Nat) : Int) by omega,
    pySliceList_zero_natCast]
  rw [List.length_map, List.length_range, min_eq_left (by omega)]
  rw [take_range_map _ _ _ (by omega), List.map_map]
  refine List.map_congr_left (fun i hi => ?_)
  simp only [Function.comp]
  rw [pySliceList_zero_natCast, List.length_map, List.length_range,
    min_eq_left (by omega), take_range_map _ _ _ (by omega)]
  refine List.map_congr_left (fun j hj => ?_)
  refine congrArg (fun v => min v 255) ?_
  refine windowSumWith_congr _ _ _ _ _ _ (fun di hdi dj hdj => ?_)
  have hi' : i < yL - l + 1 := List.mem_range.mp hi
  have hj' : j < xL - t + 1 := List.mem_range.mp hj
  unfold readZero
  rw [if_pos ⟨by omega, by omega⟩]

theorem nat_max?_of_ne_nil (l : List Nat) (h : l ≠ []) :
    l.max? = some (maxNat l) := by
  cases l with
  | nil => exact absurd rfl h
  | cons a as =>
    show some (as.foldl max a) = some ((a :: as).foldl max 0)
    rw [List.foldl_cons, Nat.zero_max]

theorem foldl_max_init (B : List Nat) : ∀ i : Nat, B.foldl max i = max i (maxNat B) := by
  induction B with
  | nil =>
    intro i
    show i = max i (maxNat [])
    show i = max i 0
    omega
  | cons b B ih =>
    intro i
    rw [List.foldl_cons, ih (max i b)]
    have h2 : maxNat (b :: B) = max b (maxNat B) := by
      show (b :: B).foldl max 0 = _
      rw [List.foldl_cons, Nat.zero_max, ih b]
    rw [h2]
    omega

theorem maxNat_append (A B : List Nat) :
    maxNat (A ++ B) = max (maxNat A) (maxNat B) := by
  show (A ++ B).foldl max 0 = _
  rw [List.foldl_append, foldl_max_init B (A.foldl max 0)]
  rfl

theorem nested_range_flatten_ne_nil {β : Type} (R C : Nat) (f : Nat → Nat → β)
    (hR : 1 ≤ R) (hC : 1 ≤ C) :
    ((List.range R).map (fun i => (List.range C).map (f i))).flatten ≠ [] := by
  intro hcontra
  have hlen := congrArg List.length hcontra
  rw [List.length_flatten, List.map_map] at hlen
  have hmap : (List.range R).map (List.length ∘ fun i => (List.range C).map (f i))
      = (List.range R).map (fun _ => C) := by
    refine List.map_congr_left (fun i _ => ?_)
    show ((List.range C).map (f i)).length = C
    rw [List.length_map, List.length_range]
  rw [hmap] at hlen
  have hconst : (List.range R).map (fun _ : Nat => C) = List.replicate R C := by
    rw [show (fun _ : Nat => C) = Function.const Nat C from rfl, List.map_const,
      List.length_range]
  rw [hconst] at hlen
  simp only [List.sum_replicate, smul_eq_mul, List.length_nil] at hlen
  have : 0 < R * C := Nat.mul_pos hR hC
  omega

theorem amaxH_eq (arr : List (List Nat)) (t l yL xL : Nat)
    (ht1 : 1 ≤ t) (htY : t ≤ yL) (hl1 : 1 ≤ l) (hlX : l ≤ xL) :
    amax2d (dstHorizontalSliced arr t l yL xL)
      = some (maxNat (bestCountsH arr t l yL xL)) := by
  unfold amax2d
  rw [sliceH_eq arr t l yL xL ht1 htY hl1 hlX]
  exact nat_max?_of_ne_nil _
    (nested_range_flatten_ne_nil (yL - t + 1) (xL - l + 1) _ (by omega) (by omega))

theorem amaxV_eq (arr : List (List Nat)) (t l yL xL : Nat)
    (ht1 : 1 ≤ t) (htX : t ≤ xL) (hl1 : 1 ≤ l) (hlY : l ≤ yL) :
    amax2d (dstVerticalSliced arr t l yL xL)
      = some (maxNat (bestCountsV arr t l yL xL)) := by
  unfold amax2d
  rw [sliceV_eq arr t l yL xL ht1 htX hl1 hlY]
  exact nat_max?_of_ne_nil _
    (nested_range_flatten_ne_nil (yL - l + 1) (xL - t + 1) _ (by omega) (by omega))

theorem specFirstLen_zero (arr : List (List Nat)) (t tol yL xL : Nat) :
    ∀ fuel, specFirstLen arr t tol yL xL fuel 0 = 0 := by
  intro fuel
  cases fuel with
  | zero => rfl
  | succ fuel =>
    simp only [specFirstLen]
    rw [if_neg (by omega)]

theorem lineSearchLoop_eq_spec (arr : List (List Nat)) (t tol n : Nat)
    (ht1 : 1 ≤ t) (htn : t ≤ n) :
    ∀ fuel l, 1 ≤ l → l ≤ n → l < fuel →
      1 ≤ specFirstLen arr t tol n n fuel l →
      lineSearchLoop arr t tol n n fuel l
        = .ok (specFirstLen arr t tol n n fuel l,
            decide (maxNat (bestCountsH arr t (specFirstLen arr t tol n n fuel l) n n)
              < maxNat (bestCountsV arr t (specFirstLen arr t tol n n fuel l) n n)),
            bestCount arr t (specFirstLen arr t tol n n fuel l) n n,
            if maxNat (bestCountsH arr t (specFirstLen arr t tol n n fuel l) n n)
                < maxNat (bestCountsV arr t (specFirstLen arr t tol n n fuel l) n n)
            then dstVerticalSliced arr t (specFirstLen arr t tol n n fuel l) n n
            else dstHorizontalSliced arr t (specFirstLen arr t tol n n fuel l) n n) := by
  intro fuel
  induction fuel with
  | zero =>
    intro l _ _ hlt _
    omega
  | succ fuel ih =>
    intro l hl1 hln hlt hspec
    have hH := amaxH_eq arr t l n n ht1 htn hl1 hln
    have hV := amaxV_eq arr t l n n ht1 htn hl1 hln
    have harea : (if maxNat (bestCountsH arr t l n n) < maxNat (bestCountsV arr t l n n)
        then maxNat (bestCountsV arr t l n n) else maxNat (bestCountsH arr t l n n))
        = bestCount arr t l n n := by
      unfold bestCount
      rw [maxNat_append]
      split <;> omega
    simp only [lineSearchLoop]
    rw [if_neg (by omega)]
    simp only [hH, hV]
    rw [harea]
    by_cases hcond : bestCount arr t l n n + tol < l * t
    · rw [if_pos hcond]
      have hstep : specFirstLen arr t tol n n (fuel + 1) l
          = specFirstLen arr t tol n n fuel ((bestCount arr t l n n + tol) / t) := by
        simp only [specFirstLen]
        rw [if_pos hcond]
      rw [hstep]
      have hl'lt : (bestCount arr t l n n + tol) / t < l :=
        (Nat.div_lt_iff_lt_mul (by omega)).mpr hcond
      have hl'1 : 1 ≤ (bestCount arr t l n n + tol) / t := by
        by_contra hc
        have h0 : (bestCount arr t l n n + tol) / t = 0 := Nat.eq_zero_of_not_pos hc
        rw [hstep, h0, specFirstLen_zero] at hspec
        omega
      have hle : (bestCount arr t l n n + tol) / t ≤ n :=
        Nat.le_of_lt (lt_of_lt_of_le hl'lt hln)
      have hfu : (bestCount arr t l n n + tol) / t < fuel :=
        lt_of_lt_of_le hl'lt (Nat.lt_succ_iff.mp hlt)
      exact ih _ hl'1 hle hfu (hstep ▸ hspec)
    · rw [if_neg hcond]
      have hstop : specFirstLen arr t tol n n (fuel + 1) l = l := by
        simp only [specFirstLen]
        rw [if_neg hcond]
      rw [hstop]

theorem specFirstLen_le (arr : List (List Nat)) (t tol yL xL : Nat) :
    ∀ fuel l, specFirstLen arr t tol yL xL fuel l ≤ l := by
  intro fuel
  induction fuel with
  | zero => intro l; exact Nat.zero_le l
  | succ fuel ih =>
    intro l
    by_cases hcond : bestCount arr t l yL xL + tol < l * t
    · have hstep : specFirstLen arr t tol yL xL (fuel + 1) l
          = specFirstLen arr t tol yL xL fuel ((bestCount arr t l yL xL + tol) / t) := by
        simp only [specFirstLen]
        rw [if_pos hcond]
      rw [hstep]
      have hP : 0 < l * t := lt_of_le_of_lt (Nat.zero_le _) hcond
      have ht0 : 0 < t := by
        rcases Nat.eq_zero_or_pos t with h0 | h
        · rw [h0, Nat.mul_zero] at hP
          omega
        · exact h
      have hlt : (bestCount arr t l yL xL + tol) / t < l :=
        (Nat.div_lt_iff_lt_mul ht0).mpr hcond
      exact le_trans (ih _) (Nat.le_of_lt hlt)
    · simp only [specFirstLen]
      rw [if_neg hcond]

theorem mem_of_nat_max?_eq_some {l : List Nat} {a : Nat} (h : l.max? = some a) :
    a ∈ l :=
  ((List.max?_eq_some_iff (fun a => le_refl a) (fun a b => max_choice a b)
    (fun a b c => max_le_iff)).mp h).1

theorem findIdxRow_of_mem {row : List Nat} {a : Nat} (h : a ∈ row) :
    ∃ j, findIdxRow row a = some j := by
  induction row with
  | nil => cases h
  | cons v rest ih =>
    by_cases hv : v = a
    · exact ⟨0, by unfold findIdxRow; rw [if_pos hv]⟩
    · have hmem : a ∈ rest := by
        rcases List.mem_cons.mp h with h1 | h1
        · exact absurd h1.symm hv
        · exact h1
      obtain ⟨j, hj⟩ := ih hmem
      refine ⟨j + 1, ?_⟩
      unfold findIdxRow
      rw [if_neg hv, hj]
      rfl

theorem findIdx2d_of_mem {m : List (List Nat)} {a : Nat} (h : a ∈ m.flatten) :
    ∃ i j, findIdx2d m a = some (i, j) := by
  induction m with
  | nil => cases h
  | cons row rest ih =>
    cases hfind : findIdxRow row a with
    | some j => exact ⟨0, j, by unfold findIdx2d; rw [hfind]⟩
    | none =>
      rw [List.flatten_cons] at h
      have hmem : a ∈ rest.flatten := by
        rcases List.mem_append.mp h with h1 | h1
        · obtain ⟨j, hj⟩ := findIdxRow_of_mem h1
          rw [hj] at hfind
          cases hfind
        · exact h1
      obtain ⟨i, j, hij⟩ := ih hmem
      refine ⟨i + 1, j, ?_⟩
      unfold findIdx2d
      rw [hfind, hij]
      rfl

/-- Claim C5 as amended: for a *square* in-bounds search rectangle of side
`n` with `1 ≤ thickness ≤ n`, when the claimed shrinking sequence
(`l0 = n`, `l' = ⌊(bestCount(l) + tolerance) / thickness⌋`, stop as soon as
`bestCount(l) + tolerance ≥ thickness · l`) stops at a positive length `L`,
the search returns exactly `L` with a window of the horizontal orientation
whenever the best horizontal count is ≥ the best vertical count and of the
vertical orientation otherwise — where `bestCount` is the maximum over all
windows of both orientations of the window's resource count *saturated at
255* (the uint8 `filter2D` output).  (As stated the claim is false: for a
non-square rectangle the first iteration slices `dst_horizontal` to zero
columns and `np.amax` raises, and counts are capped at 255; when the
sequence reaches 0 the search raises instead of returning anything.) -/
theorem c5_corridor_search_amended
    (mask : List (List Nat)) (t tol sx sy ex ey n : Nat)
    (hx : ex - sx = n) (hy : ey - sy = n)
    (hyb : ey ≤ mask.length) (hxb : ∀ row ∈ mask, ex ≤ row.length)
    (ht1 : 1 ≤ t) (htn : t ≤ n)
    (hfound : 1 ≤ specFirstLen (pySlice2d mask (sy : Int) (ey : Int) (sx : Int) (ex : Int))
      t tol n n (n + 1) n) :
    ∃ i j,
      find_longest_consecutive_line_of_resources mask t tol sx sy ex ey
        = .ok (specFirstLen (pySlice2d mask (sy : Int) (ey : Int) (sx : Int) (ex : Int))
            t tol n n (n + 1) n,
          if maxNat (bestCountsH (pySlice2d mask (sy : Int) (ey : Int) (sx : Int) (ex : Int)) t
                (specFirstLen (pySlice2d mask (sy : Int) (ey : Int) (sx : Int) (ex : Int))
                  t tol n n (n + 1) n) n n)
              < maxNat (bestCountsV (pySlice2d mask (sy : Int) (ey : Int) (sx : Int) (ex : Int)) t
                (specFirstLen (pySlice2d mask (sy : Int) (ey : Int) (sx : Int) (ex : Int))
                  t tol n n (n + 1) n) n n)
          then (j + sx, i + sy, j + sx + t,
            i + sy + specFirstLen (pySlice2d mask (sy : Int) (ey : Int) (sx : Int) (ex : Int))
              t tol n n (n + 1) n)
          else (j + sx, i + sy,
            j + sx + specFirstLen (pySlice2d mask (sy : Int) (ey : Int) (sx : Int) (ex : Int))
              t tol n n (n + 1) n, i + sy + t)) := by
  set arr := pySlice2d mask (sy : Int) (ey : Int) (sx : Int) (ex : Int) with harr
  set L := specFirstLen arr t tol n n (n + 1) n with hL
  have hLn : L ≤ n := specFirstLen_le arr t tol n n (n + 1) n
  have hL1 : 1 ≤ L := hfound
  have hloop := lineSearchLoop_eq_spec arr t tol n ht1 htn (n + 1) n
    (by omega) (le_refl n) (by omega) hfound
  rw [← hL] at hloop
  have hfind : find_longest_consecutive_line_of_resources mask t tol sx sy ex ey
      = match lineSearchLoop arr t tol n n (n + 1) n with
        | .error _ => .error ()
        | .ok (l, vert, area, dst) =>
          match findIdx2d dst area with
          | none => .error ()
          | some (i, j) =>
            .ok (l, if vert then (j + sx, i + sy, j + sx + t, i + sy + l)
              else (j + sx, i + sy, j + sx + l, i + sy + t)) := by
    unfold find_longest_consecutive_line_of_resources
    rw [hx, hy]
    dsimp only
    rw [Nat.max_self]
  rw [hloop] at hfind
  by_cases hflag : maxNat (bestCountsH arr t L n n) < maxNat (bestCountsV arr t L n n)
  · have harea2 : bestCount arr t L n n = maxNat (bestCountsV arr t L n n) := by
      unfold bestCount
      rw [maxNat_append]
      omega
    have hamax := amaxV_eq arr t L n n ht1 htn hL1 hLn
    unfold amax2d at hamax
    obtain ⟨i, j, hij⟩ := findIdx2d_of_mem (mem_of_nat_max?_eq_some hamax)
    refine ⟨i, j, ?_⟩
    rw [hfind]
    simp [if_pos hflag, decide_eq_true hflag, harea2, hij]
  · have harea2 : bestCount arr t L n n = maxNat (bestCountsH arr t L n n) := by
      unfold bestCount
      rw [maxNat_append]
      omega
    have hamax := amaxH_eq arr t L n n ht1 htn hL1 hLn
    unfold amax2d at hamax
    obtain ⟨i, j, hij⟩ := findIdx2d_of_mem (mem_of_nat_max?_eq_some hamax)
    refine ⟨i, j, ?_⟩
    rw [hfind]
    simp [if_neg hflag, decide_eq_false hflag, harea2, hij]

/-- Counterexample to claim C5 as stated: a non-square search rectangle
(3×2, full of resources, thickness 1, tolerance 0).  The claimed sequence
already stops at `l0 = max(2, 3) = 3` (a vertical 3×1 window holds 3
resource pixels, so `bestCount(3) + 0 ≥ 1 · 3`) and the claim demands the
search return length 3; but the code slices `dst_horizontal` to
`x_length - max_length + 1 = 0` columns on the first iteration and
`np.amax` of the empty slice raises a `ValueError`. -/
theorem c5_corridor_search_counterexample :
    find_longest_consecutive_line_of_resources [[1, 1], [1, 1], [1, 1]] 1 0 0 0 2 3
        = .error () ∧
      3 * 1 ≤ bestCount (pySlice2d [[1, 1], [1, 1], [1, 1]] 0 3 0 2) 1 3 3 2 + 0 := by
  refine ⟨by rfl, by decide⟩

/-- Witness for the amended C5: a 2×2 all-ones region with thickness 1,
tolerance 0 — the sequence stops at its first element `l0 = 2`. -/
theorem c5_corridor_search_amended_witness :
    ∃ i j,
      find_longest_consecutive_line_of_resources [[1, 1], [1, 1]] 1 0 0 0 2 2
        = .ok (specFirstLen (pySlice2d [[1, 1], [1, 1]] (0 : Int) (2 : Int) (0 : Int) (2 : Int))
            1 0 2 2 (2 + 1) 2,
          if maxNat (bestCountsH (pySlice2d [[1, 1], [1, 1]] (0 : Int) (2 : Int) (0 : Int) (2 : Int)) 1
                (specFirstLen (pySlice2d [[1, 1], [1, 1]] (0 : Int) (2 : Int) (0 : Int) (2 : Int))
                  1 0 2 2 (2 + 1) 2) 2 2)
              < maxNat (bestCountsV (pySlice2d [[1, 1], [1, 1]] (0 : Int) (2 : Int) (0 : Int) (2 : Int)) 1
                (specFirstLen (pySlice2d [[1, 1], [1, 1]] (0 : Int) (2 : Int) (0 : Int) (2 : Int))
                  1 0 2 2 (2 + 1) 2) 2 2)
          then (j + 0, i + 0, j + 0 + 1,
            i + 0 + specFirstLen (pySlice2d [[1, 1], [1, 1]] (0 : Int) (2 : Int) (0 : Int) (2 : Int))
              1 0 2 2 (2 + 1) 2)
          else (j + 0, i + 0,
            j + 0 + specFirstLen (pySlice2d [[1, 1], [1, 1]] (0 : Int) (2 : Int) (0 : Int) (2 : Int))
              1 0 2 2 (2 + 1) 2, i + 0 + 1)) :=
  c5_corridor_search_amended [[1, 1], [1, 1]] 1 0 0 0 2 2 2 rfl rfl
    (by decide) (by decide) (by decide) (by decide) (by decide)
